import Mathlib

/-!
Verification of the scheduling and rescheduling engine of the family-tasks
application (services/learningEngine.ts, services/scheduler.ts,
services/realtimeScheduler.ts).

Modelling conventions:
* JavaScript `number` values (minutes, rates, fractions) are modelled as `ℚ`;
  `Math.floor` is `mathFloor`.  Timestamps (JS `Date`) are modelled as rational
  numbers of minutes since an arbitrary epoch; the source works in milliseconds
  and converts with `* 60 * 1000`, a fixed linear rescaling that preserves all
  comparisons and floor-of-minutes computations.
* The Japanese phase names of the source (準備 / 設計 / 実装 / 改善) are rendered
  as incubation / design / implementation / improvement, the names used by the
  `CalendarEvent.phase` union in App.tsx.
* Asynchronous calls to the Google-calendar provider are modelled as explicit
  inputs: a day query result is `Except Unit (List BusyInterval)`, and the
  scheduler used by the rescheduler is passed as a function argument.
* `localStorage` persistence is modelled as explicit state records threaded
  through the functions; a `console` call is modelled, where a claim needs it,
  by the `LogLevel` of the message emitted.
-/

namespace FamilyTasks

/-- Floor of a rational, returned as a rational: JavaScript `Math.floor`. -/
def mathFloor (q : ℚ) : ℚ := (⌊q⌋ : ℚ)

/-- The four fixed work phases, in their fixed order.  Source union type:
`'準備' | '設計' | '実装' | '改善'`. -/
inductive Phase
  | incubation
  | design
  | implementation
  | improvement
deriving DecidableEq, Repr

/-- Position of a phase in the fixed phase sequence. -/
def phaseIdx : Phase → ℕ
  | .incubation => 0
  | .design => 1
  | .implementation => 2
  | .improvement => 3

/-- Estimation record: minutes per phase, total, and confidence.  Source
interface `TaskEstimation`. -/
structure TaskEstimation where
  incubation : ℚ
  design : ℚ
  implementation : ℚ
  improvement : ℚ
  total : ℚ
  confidence : ℚ
deriving DecidableEq, Repr

/-- Observed actual minutes per phase.  Source inline type
`{ 準備: number; 設計: number; 実装: number; 改善: number }`. -/
structure ActualTime where
  incubation : ℚ
  design : ℚ
  implementation : ℚ
  improvement : ℚ
deriving DecidableEq, Repr

/-- Sum of the four recorded phase times.  Source:
`Object.values(actualTime).reduce((sum, time) => sum + time, 0)`. -/
def ActualTime.total (a : ActualTime) : ℚ :=
  a.incubation + a.design + a.implementation + a.improvement

/-- Learned phase-time distribution fractions.  Source:
`commonPatterns.phaseDistribution`. -/
structure PhaseDist where
  incubation : ℚ
  design : ℚ
  implementation : ℚ
  improvement : ℚ
deriving DecidableEq, Repr

/-- Sum of the four distribution fractions. -/
def PhaseDist.sum (d : PhaseDist) : ℚ :=
  d.incubation + d.design + d.implementation + d.improvement

/-- Learned under/over-estimation rates and phase distribution.  Source:
`LearningData['commonPatterns']`. -/
structure CommonPatterns where
  underestimationRate : ℚ
  overestimationRate : ℚ
  phaseDistribution : PhaseDist
deriving DecidableEq, Repr

/-- Per-category learning record.  Source interface `LearningData`; the
bookkeeping fields `userId` and `lastUpdated` are not modelled (no claim
mentions them). -/
structure LearningData where
  estimationAccuracy : ℚ
  commonPatterns : CommonPatterns
deriving DecidableEq, Repr

/-- Raw history entry for one actual-time observation.  Source interface
`TaskHistory`; `adjustmentReason` is kept as an opaque string and the
entry timestamp is the `now` passed to `recordActualTime`. -/
structure TaskHistory where
  taskId : String
  originalEstimation : TaskEstimation
  actualTime : ActualTime
  adjustmentReason : String
  timestamp : ℚ
deriving DecidableEq, Repr

/-- Scheduled block mirrored to the calendar.  Source interface
`CalendarEvent`.  The source builds `id` as
`` `${task.id}-${phase.phase}-${Date.now()}` ``; the wall-clock suffix is
omitted here (no claim depends on the identifier). -/
structure CalendarEvent where
  id : String
  taskId : String
  phase : Phase
  startTime : ℚ
  endTime : ℚ
  googleEventId : Option String
deriving DecidableEq, Repr

/-- A task's overall schedule window, `{ start, end }` in the source. -/
structure ScheduleWindow where
  start : ℚ
  endT : ℚ
deriving DecidableEq, Repr

/-- One recorded change of a task's schedule window. -/
structure ScheduleChange where
  taskId : String
  oldSchedule : ScheduleWindow
  newSchedule : ScheduleWindow
deriving DecidableEq, Repr

/-- Trigger reason of a rescheduling pass.  Source:
`ReschedulingEvent['triggeredBy']`. -/
inductive TriggerReason
  | calendar_change
  | task_update
  | manual_adjustment
deriving DecidableEq, Repr

/-- Auditable record of one rescheduling pass.  Source interface
`ReschedulingEvent`. -/
structure ReschedulingEvent where
  id : String
  triggeredBy : TriggerReason
  affectedTasks : List String
  timestamp : ℚ
  changes : List ScheduleChange
deriving DecidableEq, Repr

/-- Task record.  Union of the fields used by the scheduling modules
(`App.tsx` plus the learning/rescheduling fields referenced by
learningEngine.ts and realtimeScheduler.ts).  `status` is one of
`todo | doing | done | wiki`, kept as a string. -/
structure Task where
  id : String
  title : String
  description : Option String
  status : String
  project : Option String
  keywords : List String
  priority : ℕ
  dueDate : Option ℚ
  notificationTime : Option ℚ
  createdAt : ℚ
  updatedAt : ℚ
  estimation : Option TaskEstimation
  actualTime : Option ActualTime
  calendarEvents : Option (List CalendarEvent)
  scheduledStartDate : Option ℚ
  scheduledEndDate : Option ℚ
  lastRescheduled : Option ℚ
  reschedulingHistory : Option (List ReschedulingEvent)
deriving DecidableEq, Repr

/-! ### Learning engine (services/learningEngine.ts) -/

/-- Default estimation: 60 minutes split 20/30/40/10.  Source:
`getDefaultEstimation`. -/
def getDefaultEstimation : TaskEstimation :=
  { incubation := mathFloor (60 * (2/10))
    design := mathFloor (60 * (3/10))
    implementation := mathFloor (60 * (4/10))
    improvement := mathFloor (60 * (1/10))
    total := 60
    confidence := 7/10 }

/-- Initial learning record for a new task category.  Source:
`createInitialLearningData`. -/
def createInitialLearningData : LearningData :=
  { estimationAccuracy := 7/10
    commonPatterns :=
      { underestimationRate := 1/2
        overestimationRate := 1/2
        phaseDistribution :=
          { incubation := 2/10, design := 3/10, implementation := 4/10, improvement := 1/10 } } }

/-- Accuracy of one estimation against the observed actual time.  Source:
`calculateEstimationAccuracy`. -/
def calculateEstimationAccuracy (estimation : TaskEstimation) (actualTime : ActualTime) : ℚ :=
  let estimatedTotal := estimation.total
  let actualTotal := actualTime.total
  if estimatedTotal = 0 ∧ actualTotal = 0 then 1
  else if estimatedTotal = 0 ∨ actualTotal = 0 then 0
  else
    let relativeError := |estimatedTotal - actualTotal| / max estimatedTotal actualTotal
    max 0 (1 - relativeError)

/-- Update of one category's learning record from one observation.  Source:
`updateLearningData` (the part that computes the new record; map lookup,
creation of a missing record and persistence live in
`updateLearningDataFor`).  `prev = none` plays the role of the
`createInitialLearningData` branch. -/
def updateLearningData (prev : Option LearningData) (history : TaskHistory) : LearningData :=
  let learningData := prev.getD createInitialLearningData
  let accuracy := calculateEstimationAccuracy history.originalEstimation history.actualTime
  let alpha : ℚ := 1/10
  let newAccuracy := alpha * accuracy + (1 - alpha) * learningData.estimationAccuracy
  let totalEstimated := history.originalEstimation.total
  let totalActual := history.actualTime.total
  let oldPatterns := learningData.commonPatterns
  let rates :=
    if totalEstimated < totalActual then
      (alpha * 1 + (1 - alpha) * oldPatterns.underestimationRate,
       (1 - alpha) * oldPatterns.overestimationRate)
    else if totalActual < totalEstimated then
      ((1 - alpha) * oldPatterns.underestimationRate,
       alpha * 1 + (1 - alpha) * oldPatterns.overestimationRate)
    else
      (oldPatterns.underestimationRate, oldPatterns.overestimationRate)
  let actualTotal := if totalActual = 0 then 1 else totalActual
  let oldDist := oldPatterns.phaseDistribution
  let newDist : PhaseDist :=
    { incubation := alpha * (history.actualTime.incubation / actualTotal) + (1 - alpha) * oldDist.incubation
      design := alpha * (history.actualTime.design / actualTotal) + (1 - alpha) * oldDist.design
      implementation := alpha * (history.actualTime.implementation / actualTotal) + (1 - alpha) * oldDist.implementation
      improvement := alpha * (history.actualTime.improvement / actualTotal) + (1 - alpha) * oldDist.improvement }
  { estimationAccuracy := newAccuracy
    commonPatterns :=
      { underestimationRate := rates.1
        overestimationRate := rates.2
        phaseDistribution := newDist } }

/-- Rescale all phases of an estimation to a new total.  Source:
`redistributePhases`. -/
def redistributePhases (baseEstimation : TaskEstimation) (newTotal : ℚ) : TaskEstimation :=
  let r := newTotal / baseEstimation.total
  { incubation := mathFloor (baseEstimation.incubation * r)
    design := mathFloor (baseEstimation.design * r)
    implementation := mathFloor (baseEstimation.implementation * r)
    improvement := mathFloor (baseEstimation.improvement * r)
    total := newTotal
    confidence := baseEstimation.confidence }

/-- Learning-informed estimation.  Source: `getImprovedEstimation`;
`learningData` is the lookup result for the task's category
(`this.learningData.get(this.classifyTask(task))`), and `priority` is the
task's priority ordinal (1, 2 or 3). -/
def getImprovedEstimation (learningData : Option LearningData) (priority : ℕ) : TaskEstimation :=
  let baseEstimation := getDefaultEstimation
  let priorityMultiplier : ℚ := if priority = 3 then 3/2 else if priority = 1 then 7/10 else 1
  let baseEstimation := { baseEstimation with total := mathFloor (baseEstimation.total * priorityMultiplier) }
  match learningData with
  | none => redistributePhases baseEstimation baseEstimation.total
  | some ld =>
    let adjustedTotal :=
      if 6/10 < ld.commonPatterns.underestimationRate then baseEstimation.total * (12/10)
      else if 6/10 < ld.commonPatterns.overestimationRate then baseEstimation.total * (9/10)
      else baseEstimation.total
    let adjustedTotal := mathFloor adjustedTotal
    let improvedEstimation := redistributePhases baseEstimation adjustedTotal
    let improvedEstimation := { improvedEstimation with confidence := ld.estimationAccuracy }
    let patterns := ld.commonPatterns.phaseDistribution
    let improvedEstimation :=
      { improvedEstimation with
        incubation := mathFloor (adjustedTotal * patterns.incubation)
        design := mathFloor (adjustedTotal * patterns.design)
        implementation := mathFloor (adjustedTotal * patterns.implementation)
        improvement := mathFloor (adjustedTotal * patterns.improvement) }
    let phaseSum := improvedEstimation.incubation + improvedEstimation.design +
                    improvedEstimation.implementation + improvedEstimation.improvement
    if phaseSum ≠ adjustedTotal then
      { improvedEstimation with implementation := improvedEstimation.implementation + (adjustedTotal - phaseSum) }
    else improvedEstimation

/-- Substring test on strings: JavaScript `String.prototype.includes`. -/
def strIncludes (s pattern : String) : Bool :=
  1 < (s.splitOn pattern).length

/-- Category key of a task for the learning store.  Source: `classifyTask`. -/
def classifyTask (task : Task) : String :=
  match task.project with
  | some p => p
  | none =>
    match task.keywords with
    | k :: _ => k
    | [] =>
      let title := task.title.toLower
      if strIncludes title "買い物" || strIncludes title "購入" then "買い物"
      else if strIncludes title "掃除" || strIncludes title "片付け" then "家事"
      else if strIncludes title "会議" || strIncludes title "ミーティング" then "仕事"
      else if strIncludes title "勉強" || strIncludes title "学習" then "学習"
      else "その他"

/-- Persistent state of the learning engine: the per-category map
`this.learningData` (as an association list) and the raw-history log stored
under `familytasks_task_history`. -/
structure LearningEngineState where
  learningData : List (String × LearningData)
  histories : List TaskHistory
deriving DecidableEq, Repr

/-- Lookup in the association list modelling `Map.get`. -/
def lookupLearningData (key : String) : List (String × LearningData) → Option LearningData
  | [] => none
  | (k, v) :: rest => if k = key then some v else lookupLearningData key rest

/-- Update-or-insert modelling `Map.set`. -/
def setLearningData (key : String) (v : LearningData) : List (String × LearningData) → List (String × LearningData)
  | [] => [(key, v)]
  | (k, w) :: rest => if k = key then (k, v) :: rest else (k, w) :: setLearningData key v rest

/-- Append one entry to the raw-history log, keeping only the most recent
1000 entries.  Source: `saveTaskHistory` (`histories.push(history)` followed
by `histories.splice(0, histories.length - 1000)` when over the cap). -/
def saveTaskHistory (histories : List TaskHistory) (history : TaskHistory) : List TaskHistory :=
  let histories := histories ++ [history]
  if 1000 < histories.length then histories.drop (histories.length - 1000) else histories

/-- Category-map part of `updateLearningData` in the source: fetch (or create)
the record for the task's category, recompute it from the observation, and
store it back. -/
def updateLearningDataFor (task : Task) (history : TaskHistory)
    (learningData : List (String × LearningData)) : List (String × LearningData) :=
  let taskType := classifyTask task
  let prev := lookupLearningData taskType learningData
  setLearningData taskType (updateLearningData prev history) learningData

/-- Record an actual-time observation.  Source: `recordActualTime`; `now` is
the wall clock used for the history entry's timestamp. -/
def recordActualTime (task : Task) (actualTime : ActualTime) (adjustmentReason : String)
    (now : ℚ) (st : LearningEngineState) : Task × LearningEngineState :=
  let taskHistory : TaskHistory :=
    { taskId := task.id
      originalEstimation := task.estimation.getD getDefaultEstimation
      actualTime := actualTime
      adjustmentReason := adjustmentReason
      timestamp := now }
  let st := { st with histories := saveTaskHistory st.histories taskHistory }
  let st := { st with learningData := updateLearningDataFor task taskHistory st.learningData }
  ({ task with actualTime := some actualTime }, st)

/-! ### Availability finder and phase allocator (services/scheduler.ts) -/

/-- A free time slot within working hours.  Source interface `TimeSlot`;
`duration` is in minutes (the source computes it as
`Math.floor((end - start) / 60000)` over millisecond timestamps). -/
structure TimeSlot where
  start : ℚ
  endT : ℚ
  duration : ℚ
deriving DecidableEq, Repr

/-- A busy interval returned by the calendar provider for one day (the
`{start, end}` pairs extracted from `getEvents`). -/
structure BusyInterval where
  start : ℚ
  endT : ℚ
deriving DecidableEq, Repr

/-- Severity of a console message emitted by the embedded code. -/
inductive LogLevel
  | log
  | warn
  | error
deriving DecidableEq, Repr

/-- Gap computation of `findDayAvailableSlots`: walk the (sorted) busy
intervals, keeping `currentTime` as the cursor, and emit every gap of at
least 30 minutes; gaps before a busy interval are shrunk by `bufferTime`
from that interval's start, and the cursor resumes `bufferTime` after each
interval's end.  The trailing gap runs to `dayEnd`. -/
def dayGaps (bufferTime dayEnd : ℚ) : List BusyInterval → ℚ → List TimeSlot
  | [], currentTime =>
    if currentTime < dayEnd then
      let duration := mathFloor (dayEnd - currentTime)
      if 30 ≤ duration then [⟨currentTime, dayEnd, duration⟩] else []
    else []
  | e :: rest, currentTime =>
    let hd :=
      if currentTime < e.start then
        let slotEnd := e.start - bufferTime
        if currentTime < slotEnd then
          let duration := mathFloor (slotEnd - currentTime)
          if 30 ≤ duration then [⟨currentTime, slotEnd, duration⟩] else []
        else []
      else []
    hd ++ dayGaps bufferTime dayEnd rest (e.endT + bufferTime)

/-- Free slots of a single enabled day.  Source: `findDayAvailableSlots`.
`events` is the outcome of the provider query `getEvents(...)` for the day's
working window `[dayStart, dayEnd]`: `.ok` carries the busy intervals,
`.error` models a rejected promise.  The second component records the
console messages the function emits (the catch branch logs via
`console.error`). -/
def findDayAvailableSlots (dayStart dayEnd bufferTime : ℚ)
    (events : Except Unit (List BusyInterval)) : List TimeSlot × List LogLevel :=
  match events with
  | .ok evs =>
    let sortedEvents := evs.insertionSort (fun a b => a.start ≤ b.start)
    (dayGaps bufferTime dayEnd sortedEvents dayStart, [])
  | .error _ =>
    ([⟨dayStart, dayEnd, mathFloor (dayEnd - dayStart)⟩], [.error])

/-- Remaining work of one phase during allocation.  Source: the
`{ phase, duration }` entries of the `phases` array in `scheduleTask`. -/
structure PhaseWork where
  phase : Phase
  duration : ℚ
deriving DecidableEq, Repr

/-- Scheduling errors of the core (spec error taxonomy).  The source throws
`Error` objects with the corresponding messages; `capacityExceeded` carries
the reported shortfall (needed minutes, available minutes). -/
inductive SchedError
  | missingDeadline
  | capacityExceeded (needed available : ℚ)
deriving DecidableEq, Repr

/-- Inner allocation loop of `scheduleTask` over a single slot:
`while (remainingPhases.length > 0 && remainingSlotTime >= 30)` allocate
`min(phase.duration, remainingSlotTime)` minutes at the cursor, advance the
cursor by the allocated time plus `bufferTime`, and pop the phase once its
remaining duration reaches zero.  When the head phase exceeds the remaining
slot time the whole remainder is allocated and the remaining slot time
becomes `-bufferTime`, which for the nonnegative buffer times the program
uses is below the 30-minute threshold, so the loop then leaves the slot;
that exit is taken directly here.  Returns the created events and the
remaining phase work. -/
def allocSlot (taskId : String) (bufferTime : ℚ) :
    List PhaseWork → ℚ → ℚ → List CalendarEvent × List PhaseWork
  | [], _, _ => ([], [])
  | p :: ps, slotStart, remainingSlotTime =>
    if remainingSlotTime < 30 then ([], p :: ps)
    else
      let timeToAllocate := min p.duration remainingSlotTime
      let ev : CalendarEvent :=
        { id := taskId ++ "-" ++ toString (phaseIdx p.phase)
          taskId := taskId
          phase := p.phase
          startTime := slotStart
          endTime := slotStart + timeToAllocate
          googleEventId := none }
      if p.duration - timeToAllocate ≤ 0 then
        let next := allocSlot taskId bufferTime ps (slotStart + timeToAllocate + bufferTime)
          (remainingSlotTime - (timeToAllocate + bufferTime))
        (ev :: next.1, next.2)
      else
        ([ev], ⟨p.phase, p.duration - timeToAllocate⟩ :: ps)

/-- Outer allocation loop of `scheduleTask` over the free slots, earliest
first; stops as soon as no phase work remains. -/
def allocSlots (taskId : String) (bufferTime : ℚ) :
    List TimeSlot → List PhaseWork → List CalendarEvent × List PhaseWork
  | _, [] => ([], [])
  | [], ps => ([], ps)
  | s :: ss, ps =>
    let first := allocSlot taskId bufferTime ps s.start s.duration
    let next := allocSlots taskId bufferTime ss first.2
    (first.1 ++ next.1, next.2)

/-- Phase work list of `scheduleTask`: the four phases in fixed order,
keeping only those with positive duration. -/
def buildPhases (estimation : TaskEstimation) : List PhaseWork :=
  ([⟨.incubation, estimation.incubation⟩,
    ⟨.design, estimation.design⟩,
    ⟨.implementation, estimation.implementation⟩,
    ⟨.improvement, estimation.improvement⟩] : List PhaseWork).filter
    (fun p => 0 < p.duration)

/-- Allocation of a task's phase blocks into free slots.  Source:
`scheduleTask`.  `availableSlots` stands for the result of
`findAvailableTimeSlots(now, task.dueDate, workingHours, bufferTime)`; the
deadline requirement and the final capacity check are as in the source. -/
def scheduleTask (task : Task) (estimation : TaskEstimation)
    (availableSlots : List TimeSlot) (bufferTime : ℚ) :
    Except SchedError (List CalendarEvent) :=
  match task.dueDate with
  | none => .error .missingDeadline
  | some _ =>
    let phases := buildPhases estimation
    let res := allocSlots task.id bufferTime availableSlots phases
    if res.2.isEmpty then .ok res.1
    else
      .error (.capacityExceeded ((res.2.map PhaseWork.duration).sum)
        ((availableSlots.map TimeSlot.duration).sum))

/-! ### Realtime rescheduler (services/realtimeScheduler.ts) -/

/-- Abstract view of `scheduleTask(task, estimation, workingHours, bufferTime)`
as used by the rescheduler: the working hours, the calendar provider and the
wall clock are fixed, and a call is determined by the task's due date, the
estimation and the buffer time.  The relaxation ladder varies exactly these
three arguments. -/
def SchedFn : Type :=
  Option ℚ → TaskEstimation → ℚ → Except SchedError (List CalendarEvent)

/-- Basic estimation used by the rescheduler.  Source:
`RealtimeScheduler.estimateTaskTime` (uses the task's stored estimation when
present, otherwise the priority-scaled 20/30/40/10 default). -/
def estimateTaskTime (task : Task) : TaskEstimation :=
  match task.estimation with
  | some estimation => estimation
  | none =>
    let baseTime : ℚ := 60
    let priorityMultiplier : ℚ :=
      if task.priority = 3 then 3/2 else if task.priority = 1 then 7/10 else 1
    let adjustedTime := mathFloor (baseTime * priorityMultiplier)
    { incubation := mathFloor (adjustedTime * (2/10))
      design := mathFloor (adjustedTime * (3/10))
      implementation := mathFloor (adjustedTime * (4/10))
      improvement := mathFloor (adjustedTime * (1/10))
      total := adjustedTime
      confidence := 7/10 }

/-- Window `{start: events[0].startTime, end: events[events.length-1].endTime}`
of a block list, `none` for an empty list. -/
def scheduleWindowOf (events : List CalendarEvent) : Option ScheduleWindow :=
  match events.head?, events.getLast? with
  | some e0, some e1 => some ⟨e0.startTime, e1.endTime⟩
  | _, _ => none

/-- Current schedule window of a task.  Source: `getTaskSchedule`: sort the
task's blocks by start time (JavaScript `Array.prototype.sort` is stable,
as is `List.insertionSort`) and take the first block's start and the last
block's end. -/
def getTaskSchedule (task : Task) : Option ScheduleWindow :=
  match task.calendarEvents with
  | none => none
  | some events =>
    if events.isEmpty then none
    else scheduleWindowOf (events.insertionSort (fun a b => a.startTime ≤ b.startTime))

/-- Estimation with every phase duration (and the total) reduced by 30%.
Source: the `reducedEstimation` of `scheduleTaskWithRelaxedConstraints`. -/
def shrinkEstimation (estimation : TaskEstimation) : TaskEstimation :=
  { estimation with
    incubation := mathFloor (estimation.incubation * (7/10))
    design := mathFloor (estimation.design * (7/10))
    implementation := mathFloor (estimation.implementation * (7/10))
    improvement := mathFloor (estimation.improvement * (7/10))
    total := mathFloor (estimation.total * (7/10)) }

/-- Relaxation ladder.  Source: `scheduleTaskWithRelaxedConstraints`: (a) when
the task has a due date, retry with it extended by 7 days; (b) retry with the
original due date and the buffer time halved but floored at 5 minutes; (c)
retry with every phase duration reduced by 30%; propagate the last error when
all three retries fail (the source throws its own `Error` at that point). -/
def scheduleTaskWithRelaxedConstraints (sched : SchedFn) (task : Task)
    (estimation : TaskEstimation) (bufferTime : ℚ) : Except SchedError (List CalendarEvent) :=
  let step2 :=
    let reducedBufferTime := max 5 (bufferTime / 2)
    match sched task.dueDate estimation reducedBufferTime with
    | .ok events => .ok events
    | .error _ =>
      match sched task.dueDate (shrinkEstimation estimation) bufferTime with
      | .ok events => .ok events
      | .error e => .error e
  match task.dueDate with
  | some dueDate =>
    match sched (some (dueDate + 7 * 24 * 60)) estimation bufferTime with
    | .ok events => .ok events
    | .error _ => step2
  | none => step2

/-- Per-task scheduling outcome inside `rescheduleAffectedTasks`: try the
strict allocation; on failure keep the original schedule when the task
already has calendar events (no relaxation), otherwise fall back to the
relaxation ladder; `none` means the task is left untouched. -/
def attemptSchedule (sched : SchedFn) (task : Task) (bufferTime : ℚ) :
    Option (List CalendarEvent) :=
  let estimation := estimateTaskTime task
  match sched task.dueDate estimation bufferTime with
  | .ok events => some events
  | .error _ =>
    match task.calendarEvents with
    | some (_ :: _) => none
    | _ =>
      match scheduleTaskWithRelaxedConstraints sched task estimation bufferTime with
      | .ok events => some events
      | .error _ => none

/-- Body of the per-task loop of `rescheduleAffectedTasks`: capture the old
window, attempt scheduling, and on a non-empty result update the task's
blocks, window and last-rescheduled stamp, recording a change entry exactly
when an old window exists and differs from the new one.  The `Bool` reports
whether the task was updated (used for the history push in the batch). -/
def rescheduleOneTask (sched : SchedFn) (now bufferTime : ℚ) (task : Task) :
    Task × Option ScheduleChange × Bool :=
  let oldSchedule := getTaskSchedule task
  match attemptSchedule sched task bufferTime with
  | some events =>
    match scheduleWindowOf events with
    | some newSchedule =>
      let change :=
        match oldSchedule with
        | some w =>
          if w.start ≠ newSchedule.start ∨ w.endT ≠ newSchedule.endT then
            some ⟨task.id, w, newSchedule⟩
          else none
        | none => none
      ({ task with
          calendarEvents := some events
          scheduledStartDate := some newSchedule.start
          scheduledEndDate := some newSchedule.endT
          lastRescheduled := some now }, change, true)
    | none => (task, none, false)
  | none => (task, none, false)

/-- Append a rescheduling event to the persisted history, keeping only the
most recent 100 events.  Source: `saveReschedulingEvent`. -/
def saveReschedulingEvent (events : List ReschedulingEvent) (event : ReschedulingEvent) :
    List ReschedulingEvent :=
  let events := events ++ [event]
  if 100 < events.length then events.drop (events.length - 100) else events

/-- Batch rescheduling pass.  Source: `rescheduleAffectedTasks`.  In the
source each updated task pushes a reference to the single event object while
its change list is still being accumulated, so after the pass every pushed
history entry holds the final change list; that final state is modelled by
appending the completed event after the loop.  Returns the updated tasks,
the completed event, and the updated persisted event history. -/
def rescheduleAffectedTasks (sched : SchedFn) (now : ℚ) (tasks : List Task)
    (triggeredBy : TriggerReason) (bufferTime : ℚ)
    (storedEvents : List ReschedulingEvent) :
    List Task × ReschedulingEvent × List ReschedulingEvent :=
  let results := tasks.map (rescheduleOneTask sched now bufferTime)
  let event : ReschedulingEvent :=
    { id := toString now
      triggeredBy := triggeredBy
      affectedTasks := tasks.map Task.id
      timestamp := now
      changes := results.filterMap (fun r => r.2.1) }
  let updatedTasks := results.map (fun r =>
    if r.2.2 then
      { r.1 with reschedulingHistory := some ((r.1.reschedulingHistory.getD []) ++ [event]) }
    else r.1)
  (updatedTasks, event, saveReschedulingEvent storedEvents event)

/-- Mutable state of the `RealtimeScheduler` singleton that
`handleCalendarChange` touches: the single-flight flag, the stored tasks and
the persisted event history. -/
structure RealtimeSchedulerState where
  reschedulingInProgress : Bool
  storedTasks : List Task
  storedEvents : List ReschedulingEvent

/-- Webhook entry point.  Source: `handleCalendarChange`.  The guarded body
(`getAffectedTasks`, the batch pass, `notifyListeners`, and the `finally`
reset of the flag) is abstracted as `doRescheduling`, which returns the new
state and the events delivered to listeners; when the single-flight flag is
already set the function returns immediately. -/
def handleCalendarChange
    (doRescheduling : RealtimeSchedulerState → RealtimeSchedulerState × List ReschedulingEvent)
    (st : RealtimeSchedulerState) : RealtimeSchedulerState × List ReschedulingEvent :=
  if st.reschedulingInProgress then (st, [])
  else
    let st1 := { st with reschedulingInProgress := true }
    let res := doRescheduling st1
    ({ res.1 with reschedulingInProgress := false }, res.2)

/-! ### Concrete instances used by witnesses and counterexamples -/

/-- Task with neutral defaults; concrete instances below adjust single
fields. -/
def baseTask : Task :=
  { id := "t", title := "task", description := none, status := "todo",
    project := none, keywords := [], priority := 2, dueDate := none,
    notificationTime := none, createdAt := 0, updatedAt := 0,
    estimation := none, actualTime := none, calendarEvents := none,
    scheduledStartDate := none, scheduledEndDate := none,
    lastRescheduled := none, reschedulingHistory := none }

/-- Block covering 0–100 minutes; a later-starting block nests inside it. -/
def c9BlockOuter : CalendarEvent :=
  { id := "a", taskId := "t", phase := .implementation, startTime := 0, endTime := 100,
    googleEventId := none }

/-- Block covering 10–20 minutes, nested inside `c9BlockOuter`. -/
def c9BlockInner : CalendarEvent :=
  { id := "b", taskId := "t", phase := .implementation, startTime := 10, endTime := 20,
    googleEventId := none }

/-- Two disjoint blocks listed out of chronological order (starts 40 and 0). -/
def c9wEvents : List CalendarEvent :=
  [{ id := "b", taskId := "t", phase := .design, startTime := 40, endTime := 100,
     googleEventId := none },
   { id := "a", taskId := "t", phase := .incubation, startTime := 0, endTime := 30,
     googleEventId := none }]

/-- Task holding the two disjoint blocks of `c9wEvents`. -/
def c9wTask : Task := { baseTask with calendarEvents := some c9wEvents }

/-- Literal default-shaped estimation (60 minutes split 12/18/24/6). -/
def c3Estimation : TaskEstimation :=
  { incubation := 12, design := 18, implementation := 24, improvement := 6,
    total := 60, confidence := 7/10 }

/-- Block a relaxed (deadline-extended) scheduling attempt would produce. -/
def c3Block : CalendarEvent :=
  { id := "t-0", taskId := "t", phase := .incubation, startTime := 20000, endTime := 20060,
    googleEventId := none }

/-- Previously scheduled block of the C3 task. -/
def c3OldBlock : CalendarEvent :=
  { id := "t-old", taskId := "t", phase := .incubation, startTime := 100, endTime := 160,
    googleEventId := none }

/-- Task with a due date and an existing schedule. -/
def c3Task : Task :=
  { baseTask with dueDate := some 10000, estimation := some c3Estimation,
                  calendarEvents := some [c3OldBlock] }

/-- Scheduler on which strict allocation fails but the 7-day deadline
extension (ladder step (a)) would succeed. -/
def c3Sched : SchedFn := fun dueDate _ _ =>
  if dueDate = some (10000 + 7 * 24 * 60) then .ok [c3Block]
  else .error (.capacityExceeded 60 0)

/-- Scheduler that fails every attempt. -/
def c3wSched : SchedFn := fun _ _ _ => .error (.capacityExceeded 1 0)

/-- Scheduler whose strict allocation succeeds with the block `c3Block`. -/
def c7Sched : SchedFn := fun _ _ _ => .ok [c3Block]

/-- Task with a due date and no existing schedule. -/
def c3wTask : Task := { baseTask with dueDate := some 0 }

/-- A single free 9-hour slot (540 minutes from epoch minute 0). -/
def c2Slots : List TimeSlot := [{ start := 0, endT := 540, duration := 540 }]

/-- Task with a due date at minute 540. -/
def c2Task : Task := { baseTask with dueDate := some 540 }

/-- Well-formedness of a free-slot list as the Availability Finder produces
it: chronologically chained (each slot's start plus its duration, in
minutes, is at most the next slot's start) with nonnegative durations. -/
def SlotsWF (slots : List TimeSlot) : Prop :=
  slots.Chain' (fun a b => a.start + a.duration ≤ b.start) ∧ ∀ s ∈ slots, 0 ≤ s.duration

/-- C6 (witness): concrete observation history for the accuracy theorem:
estimated total 60 minutes, actual total 70 minutes. -/
def c6History : TaskHistory :=
  { taskId := "t", originalEstimation := { getDefaultEstimation with total := 60 },
    actualTime := ⟨15, 20, 30, 5⟩, adjustmentReason := "user_manual", timestamp := 0 }

/-! ### Claims about the learning engine (C1, C5, C6) -/

/-- Case analysis shared by the accuracy formula: the source's explicit
zero-total branches agree with the single closed-form formula (division by
zero in `ℚ` yields 0, so the both-zero branch of the formula is 1). -/
theorem accuracyCaseFold (e a : ℚ) (he : 0 ≤ e) (ha : 0 ≤ a) :
    (if e = 0 ∧ a = 0 then (1 : ℚ)
     else if e = 0 ∨ a = 0 then 0
     else max 0 (1 - |e - a| / max e a)) =
    max 0 (1 - |e - a| / max e a) := by
  split_ifs with h1 h2
  · obtain ⟨rfl, rfl⟩ := h1
    norm_num
  · rcases h2 with rfl | rfl
    · have ha' : 0 < a := lt_of_le_of_ne ha fun h => h1 ⟨rfl, h.symm⟩
      rw [max_eq_right ha'.le, zero_sub, abs_neg, abs_of_pos ha', div_self ha'.ne',
        sub_self, max_self]
    · have he' : 0 < e := lt_of_le_of_ne he fun h => h1 ⟨h.symm, rfl⟩
      rw [max_eq_left he'.le, sub_zero, abs_of_pos he', div_self he'.ne',
        sub_self, max_self]
  · rfl

/-- C1: the Estimation returned by `getImprovedEstimation` is claimed to satisfy
`incubation + design + implementation + improvement = total` for every
learning-store state and priority.  The code violates this: with no learning
record for the category and priority 3 (high), the total is floored to 90
before `redistributePhases` computes its ratio, so the ratio is 1, the phases
keep their default values summing to 60, and no remainder is assigned to the
implementation phase. -/
theorem getImprovedEstimation_no_record_high_priority_sum_ne_total :
    (getImprovedEstimation none 3).incubation + (getImprovedEstimation none 3).design +
      (getImprovedEstimation none 3).implementation + (getImprovedEstimation none 3).improvement = 60 ∧
    (getImprovedEstimation none 3).total = 90 ∧ (60 : ℚ) ≠ 90 := by
  norm_num [getImprovedEstimation, getDefaultEstimation, redistributePhases, mathFloor]

/-- C5 (counterexample): after an update whose observed actual total is zero
(the division guard replaces the total by 1), the four phase-distribution
fractions sum to 9/10, not 1: starting from the initial record (fractions
summing to 1), a `{0,0,0,0}` observation scales the sum by `1 - α = 0.9`. -/
theorem updateLearningData_zero_observation_sum_is_nine_tenths :
    (updateLearningData none
      { taskId := "t", originalEstimation := getDefaultEstimation,
        actualTime := ⟨0, 0, 0, 0⟩, adjustmentReason := "user_manual",
        timestamp := 0 }).commonPatterns.phaseDistribution.sum = 9/10 ∧
    (9/10 : ℚ) ≠ 1 := by
  constructor
  · norm_num [updateLearningData, createInitialLearningData, PhaseDist.sum, ActualTime.total]
  · norm_num

/-- C5 (amended): the four phase-distribution fractions sum to 1 after every
update by `updateLearningData` whose observed actual total is nonzero,
provided they summed to 1 before the update (as they do in the initial
record); a zero-total observation instead scales the sum by 0.9. -/
theorem updateLearningData_distribution_sum_invariant
    (prev : Option LearningData) (history : TaskHistory)
    (hsum : (prev.getD createInitialLearningData).commonPatterns.phaseDistribution.sum = 1)
    (htot : history.actualTime.total ≠ 0) :
    (updateLearningData prev history).commonPatterns.phaseDistribution.sum = 1 := by
  simp only [updateLearningData, PhaseDist.sum] at hsum ⊢
  rw [if_neg htot]
  have key : history.actualTime.incubation / history.actualTime.total +
      history.actualTime.design / history.actualTime.total +
      history.actualTime.implementation / history.actualTime.total +
      history.actualTime.improvement / history.actualTime.total = 1 := by
    rw [div_add_div_same, div_add_div_same, div_add_div_same]
    exact div_self htot
  linarith [key, hsum]

/-- C5 (witness for the amended theorem): a concrete update with a nonzero
actual total keeps the distribution sum at 1. -/
theorem updateLearningData_distribution_sum_invariant_witness :
    ((none : Option LearningData).getD createInitialLearningData).commonPatterns.phaseDistribution.sum = 1 ∧
    ({ taskId := "t", originalEstimation := getDefaultEstimation,
       actualTime := ⟨15, 20, 30, 5⟩, adjustmentReason := "user_manual",
       timestamp := 0 } : TaskHistory).actualTime.total ≠ 0 ∧
    (updateLearningData none
      { taskId := "t", originalEstimation := getDefaultEstimation,
        actualTime := ⟨15, 20, 30, 5⟩, adjustmentReason := "user_manual",
        timestamp := 0 }).commonPatterns.phaseDistribution.sum = 1 :=
  ⟨by norm_num [createInitialLearningData, PhaseDist.sum],
   by norm_num [ActualTime.total],
   updateLearningData_distribution_sum_invariant none _
     (by norm_num [createInitialLearningData, PhaseDist.sum])
     (by norm_num [ActualTime.total])⟩

/-- C6: the accuracy of one observation equals
`max(0, 1 - |estimatedTotal - actualTotal| / max(estimatedTotal, actualTotal))`,
is 1 when both totals are zero and 0 when exactly one total is zero, and the
stored accuracy is updated to `0.1 * observed + 0.9 * old`. -/
theorem calculateEstimationAccuracy_formula_and_ema_update
    (prev : Option LearningData) (history : TaskHistory)
    (he : 0 ≤ history.originalEstimation.total) (ha : 0 ≤ history.actualTime.total) :
    calculateEstimationAccuracy history.originalEstimation history.actualTime =
      max 0 (1 - |history.originalEstimation.total - history.actualTime.total| /
        max history.originalEstimation.total history.actualTime.total) ∧
    (history.originalEstimation.total = 0 ∧ history.actualTime.total = 0 →
      calculateEstimationAccuracy history.originalEstimation history.actualTime = 1) ∧
    ((history.originalEstimation.total = 0 ∧ history.actualTime.total ≠ 0) ∨
     (history.originalEstimation.total ≠ 0 ∧ history.actualTime.total = 0) →
      calculateEstimationAccuracy history.originalEstimation history.actualTime = 0) ∧
    (updateLearningData prev history).estimationAccuracy =
      1/10 * calculateEstimationAccuracy history.originalEstimation history.actualTime +
      9/10 * (prev.getD createInitialLearningData).estimationAccuracy := by
  have hformula : calculateEstimationAccuracy history.originalEstimation history.actualTime =
      max 0 (1 - |history.originalEstimation.total - history.actualTime.total| /
        max history.originalEstimation.total history.actualTime.total) := by
    simp only [calculateEstimationAccuracy]
    exact accuracyCaseFold _ _ he ha
  refine ⟨hformula, ?_, ?_, ?_⟩
  · rintro ⟨h1, h2⟩
    simp [calculateEstimationAccuracy, h1, h2]
  · rintro (⟨h1, h2⟩ | ⟨h1, h2⟩) <;> simp [calculateEstimationAccuracy, h1, h2]
  · simp only [updateLearningData]
    ring_nf

/-- C6 (witness): the hypotheses hold and the formula applies at `c6History`. -/
theorem calculateEstimationAccuracy_formula_and_ema_update_witness :
    0 ≤ c6History.originalEstimation.total ∧ 0 ≤ c6History.actualTime.total ∧
    calculateEstimationAccuracy c6History.originalEstimation c6History.actualTime =
      max 0 (1 - |c6History.originalEstimation.total - c6History.actualTime.total| /
        max c6History.originalEstimation.total c6History.actualTime.total) :=
  ⟨by norm_num [c6History], by norm_num [c6History, ActualTime.total],
   (calculateEstimationAccuracy_formula_and_ema_update none c6History
     (by norm_num [c6History]) (by norm_num [c6History, ActualTime.total])).1⟩

/-! ### Claims about the realtime scheduler guard (C8) and recording (C10) -/

/-- C8: a trigger arriving while a rescheduling pass is in progress is a
no-op: whatever the guarded body would do, `handleCalendarChange` leaves the
state (stored tasks, flag, persisted event history) unchanged and delivers
no event to any listener. -/
theorem handleCalendarChange_noop_when_in_progress
    (doRescheduling : RealtimeSchedulerState → RealtimeSchedulerState × List ReschedulingEvent)
    (st : RealtimeSchedulerState)
    (h : st.reschedulingInProgress = true) :
    handleCalendarChange doRescheduling st = (st, []) := by
  simp [handleCalendarChange, h]

/-- C8 (witness): concrete in-progress state where the guard fires. -/
theorem handleCalendarChange_noop_when_in_progress_witness :
    ({ reschedulingInProgress := true, storedTasks := [], storedEvents := [] }
        : RealtimeSchedulerState).reschedulingInProgress = true ∧
    handleCalendarChange (fun s => (s, []))
      { reschedulingInProgress := true, storedTasks := [], storedEvents := [] } =
      ({ reschedulingInProgress := true, storedTasks := [], storedEvents := [] }, []) :=
  ⟨rfl, handleCalendarChange_noop_when_in_progress _ _ rfl⟩

/-- C10: `recordActualTime` sets exactly the task's `actualTime` field and
leaves every other field (in particular the stored estimation) unchanged;
the observation is appended to the persisted history, which keeps only the
most recent 1000 entries. -/
theorem recordActualTime_frame_and_capped_history
    (task : Task) (actualTime : ActualTime) (adjustmentReason : String) (now : ℚ)
    (st : LearningEngineState) :
    (recordActualTime task actualTime adjustmentReason now st).1 =
      { task with actualTime := some actualTime } ∧
    List.IsSuffix (recordActualTime task actualTime adjustmentReason now st).2.histories
      (st.histories ++
        [{ taskId := task.id, originalEstimation := task.estimation.getD getDefaultEstimation,
           actualTime := actualTime, adjustmentReason := adjustmentReason, timestamp := now }]) ∧
    (recordActualTime task actualTime adjustmentReason now st).2.histories.length =
      min (st.histories.length + 1) 1000 := by
  refine ⟨rfl, ?_, ?_⟩
  · simp only [recordActualTime, saveTaskHistory]
    split_ifs with h
    · exact (List.drop_suffix _ _).trans (List.suffix_refl _)
    · exact List.suffix_refl _
  · simp only [recordActualTime, saveTaskHistory]
    split_ifs with h
    · simp_all
      omega
    · simp_all

/-! ### Claim about the availability finder's failure policy (C4) -/

/-- C4 (counterexample): when the provider query for a day fails, the entire
working window is indeed returned as a single free slot, but the failure is
only logged at console `error` level; no warning-level signal accompanies
the value returned to the caller (the claim's second conjunct fails). -/
theorem findDayAvailableSlots_failure_no_warning_level_signal :
    findDayAvailableSlots 540 1080 15 (.error ()) =
      ([{ start := 540, endT := 1080, duration := 540 }], [.error]) ∧
    LogLevel.warn ∉ (findDayAvailableSlots 540 1080 15 (.error ())).2 := by
  constructor
  · norm_num [findDayAvailableSlots, mathFloor]
  · decide

/-- C4 (amended): for every working window and buffer, a failed provider
query makes the finder return the entire working window as the single free
slot for that day, and the failure is logged at console `error` level (not
surfaced to the caller as a warning-level signal). -/
theorem findDayAvailableSlots_failure_full_window_fallback
    (dayStart dayEnd bufferTime : ℚ) :
    findDayAvailableSlots dayStart dayEnd bufferTime (.error ()) =
      ([{ start := dayStart, endT := dayEnd, duration := mathFloor (dayEnd - dayStart) }],
        [.error]) := rfl

/-! ### Claim about the task schedule window (C9) -/

/-- C9 (counterexample): for overlapping (nested) blocks the captured window
is not `(earliest start, latest end)`: with blocks 0–100 and 10–20 the code
returns end 20 (the end of the block with the latest start), while the
latest block end is 100. -/
theorem getTaskSchedule_nested_blocks_window_misses_latest_end :
    getTaskSchedule { baseTask with calendarEvents := some [c9BlockOuter, c9BlockInner] } =
      some { start := 0, endT := 20 } ∧
    (100 : ℚ) ∈ [c9BlockOuter, c9BlockInner].map CalendarEvent.endTime ∧
    (∀ q ∈ [c9BlockOuter, c9BlockInner].map CalendarEvent.endTime, q ≤ 100) ∧
    (20 : ℚ) ≠ 100 := by
  refine ⟨?_, ?_, ?_, by norm_num⟩
  · decide
  · decide
  · decide

/-- Helper: the last element reported by `getLast?` is a member of the
list. -/
theorem mem_of_getLastEq : ∀ (l : List CalendarEvent) (a : CalendarEvent),
    l.getLast? = some a → a ∈ l
  | [], _, h => by simp at h
  | [x], a, h => by simp_all
  | x :: y :: t, a, h => by
    have := mem_of_getLastEq (y :: t) a (by simpa using h)
    simp_all

/-- Helper: in a list of blocks that is chained (each block ends no later
than the next starts) and has positive durations, every block ends no later
than the last block does. -/
theorem getLast_end_is_max : ∀ (l : List CalendarEvent),
    l.Pairwise (fun a b => a.endTime ≤ b.startTime) →
    (∀ e ∈ l, e.startTime < e.endTime) →
    ∀ e1, l.getLast? = some e1 → ∀ e ∈ l, e.endTime ≤ e1.endTime
  | [], _, _, _, h, _, he => by simp at he
  | [x], _, _, e1, h, e, he => by
    simp_all
  | x :: y :: t, hp, hpos, e1, h, e, he => by
    have hlast : (y :: t).getLast? = some e1 := by simpa using h
    have hmem : e1 ∈ y :: t := mem_of_getLastEq _ _ hlast
    rcases List.mem_cons.mp he with rfl | he'
    · have h1 : e.endTime ≤ e1.startTime := (List.pairwise_cons.mp hp).1 e1 hmem
      have h2 : e1.startTime < e1.endTime := hpos e1 (List.mem_cons_of_mem _ hmem)
      linarith
    · exact getLast_end_is_max (y :: t) (List.pairwise_cons.mp hp).2
        (fun f hf => hpos f (List.mem_cons_of_mem _ hf)) e1 hlast e he'

/-- C9 (amended): the schedule window captured by `getTaskSchedule` is null
for a task with no blocks; for a non-empty block list of pairwise
non-overlapping, positive-duration blocks (as the allocator produces) it is
exactly the envelope: its start is the earliest block start, its end the
latest block end, both attained by blocks of the task. -/
theorem getTaskSchedule_window_characterization (task : Task) :
    ((task.calendarEvents = none ∨ task.calendarEvents = some []) →
      getTaskSchedule task = none) ∧
    (∀ events, task.calendarEvents = some events → events ≠ [] →
      (∀ e ∈ events, e.startTime < e.endTime) →
      events.Pairwise (fun a b => a.endTime ≤ b.startTime ∨ b.endTime ≤ a.startTime) →
      ∃ w, getTaskSchedule task = some w ∧
        w.start ∈ events.map CalendarEvent.startTime ∧
        w.endT ∈ events.map CalendarEvent.endTime ∧
        ∀ e ∈ events, w.start ≤ e.startTime ∧ e.endTime ≤ w.endT) := by
  constructor
  · rintro (h | h) <;> simp [getTaskSchedule, h]
  · intro events hev hne hpos hdisj
    have hperm : List.Perm
        (events.insertionSort (fun a b => a.startTime ≤ b.startTime)) events :=
      List.perm_insertionSort _ _
    set l := events.insertionSort (fun a b => a.startTime ≤ b.startTime) with hl
    haveI : IsTotal CalendarEvent (fun a b => a.startTime ≤ b.startTime) :=
      ⟨fun a b => le_total a.startTime b.startTime⟩
    haveI : IsTrans CalendarEvent (fun a b => a.startTime ≤ b.startTime) :=
      ⟨fun _ _ _ hab hbc => le_trans hab hbc⟩
    have hsorted : l.Pairwise (fun a b => a.startTime ≤ b.startTime) :=
      List.sorted_insertionSort _ _
    have hdisj' : l.Pairwise (fun a b => a.endTime ≤ b.startTime ∨ b.endTime ≤ a.startTime) :=
      (hperm.pairwise_iff (fun hh => Or.symm hh)).mpr hdisj
    have hpos' : ∀ e ∈ l, e.startTime < e.endTime := fun e he => hpos e (hperm.mem_iff.mp he)
    have hchain : l.Pairwise (fun a b => a.endTime ≤ b.startTime) := by
      have hand := hsorted.and hdisj'
      refine hand.imp_of_mem ?_
      intro a b ha hb hab
      rcases hab.2 with h | h
      · exact h
      · have h1 : b.startTime < b.endTime := hpos' b hb
        have h2 : a.startTime ≤ b.startTime := hab.1
        linarith
    have hlne : l ≠ [] := fun h => hne (List.Perm.eq_nil (h ▸ hperm).symm)
    obtain ⟨x, t, hxt⟩ := List.exists_cons_of_ne_nil hlne
    have hx_mem : x ∈ l := hxt ▸ List.mem_cons_self x t
    obtain ⟨e1, he1⟩ : ∃ e1, l.getLast? = some e1 := by
      rw [hxt]; exact ⟨(x :: t).getLast (List.cons_ne_nil x t), List.getLast?_eq_getLast _ _⟩
    have he1_mem : e1 ∈ l := mem_of_getLastEq _ _ he1
    refine ⟨⟨x.startTime, e1.endTime⟩, ?_, ?_, ?_, ?_⟩
    · simp only [getTaskSchedule, hev, scheduleWindowOf]
      rw [if_neg (by simpa [List.isEmpty_iff] using hne), ← hl, hxt]
      rw [hxt] at he1
      simp [he1]
    · exact List.mem_map_of_mem _ (hperm.mem_iff.mp hx_mem)
    · exact List.mem_map_of_mem _ (hperm.mem_iff.mp he1_mem)
    · intro e he
      have hel : e ∈ l := hperm.mem_iff.mpr he
      constructor
      · rw [hxt] at hel hsorted
        rcases List.mem_cons.mp hel with rfl | he'
        · exact le_refl _
        · exact (List.pairwise_cons.mp hsorted).1 e he'
      · exact getLast_end_is_max l hchain hpos' e1 he1 e hel

/-- C9 (witness for the amended theorem): two disjoint blocks 0–30 and
40–100, given out of order; the computed window is their envelope. -/
theorem getTaskSchedule_window_characterization_witness :
    ∃ w, getTaskSchedule c9wTask = some w ∧
      w.start ∈ c9wEvents.map CalendarEvent.startTime ∧
      w.endT ∈ c9wEvents.map CalendarEvent.endTime ∧
      ∀ e ∈ c9wEvents, w.start ≤ e.startTime ∧ e.endTime ≤ w.endT :=
  (getTaskSchedule_window_characterization c9wTask).2 c9wEvents rfl
    (by decide) (by decide) (by decide)

/-! ### Claims about the relaxation ladder (C3) and change entries (C7) -/

/-- C3 (counterexample): the relaxation ladder is not applied "whenever
strict allocation fails": for a task that already has scheduled blocks the
code keeps the prior schedule and never tries any relaxation, even though
here the first ladder step (deadline + 7 days) would succeed. -/
theorem rescheduleAffectedTasks_skips_ladder_when_task_has_schedule :
    c3Sched c3Task.dueDate (estimateTaskTime c3Task) 15 = .error (.capacityExceeded 60 0) ∧
    scheduleTaskWithRelaxedConstraints c3Sched c3Task (estimateTaskTime c3Task) 15 =
      .ok [c3Block] ∧
    rescheduleOneTask c3Sched 0 15 c3Task = (c3Task, none, false) := by
  refine ⟨?_, ?_, ?_⟩
  · norm_num [c3Sched, c3Task, baseTask]
  · norm_num [scheduleTaskWithRelaxedConstraints, c3Sched, c3Task, baseTask]
  · norm_num [rescheduleOneTask, attemptSchedule, c3Sched, c3Task, baseTask]

/-- C3 (amended): when strict allocation fails, the rescheduler applies the
relaxation ladder only to a task with no existing scheduled blocks; a task
that has blocks keeps its prior schedule with no relaxation attempt.  For a
block-less task the ladder runs in order: (a) deadline + 7 days; (b) original
deadline with the buffer halved and floored at 5 minutes; (c) every phase
duration shrunk by 30%; and when all three fail the task is left untouched
(the per-task step returns normally, so the batch continues). -/
theorem rescheduleAffectedTasks_relaxation_policy
    (sched : SchedFn) (now bufferTime : ℚ) (task : Task) (dueDate : ℚ) (err : SchedError)
    (hdue : task.dueDate = some dueDate)
    (hstrict : sched task.dueDate (estimateTaskTime task) bufferTime = .error err) :
    (∀ e es, task.calendarEvents = some (e :: es) →
      rescheduleOneTask sched now bufferTime task = (task, none, false)) ∧
    ((task.calendarEvents = none ∨ task.calendarEvents = some []) →
      (attemptSchedule sched task bufferTime =
        match scheduleTaskWithRelaxedConstraints sched task (estimateTaskTime task) bufferTime with
        | .ok events => some events
        | .error _ => none) ∧
      (scheduleTaskWithRelaxedConstraints sched task (estimateTaskTime task) bufferTime =
        match sched (some (dueDate + 7 * 24 * 60)) (estimateTaskTime task) bufferTime with
        | .ok events => .ok events
        | .error _ =>
          match sched (some dueDate) (estimateTaskTime task) (max 5 (bufferTime / 2)) with
          | .ok events => .ok events
          | .error _ => sched (some dueDate) (shrinkEstimation (estimateTaskTime task)) bufferTime) ∧
      (∀ e1 e2 e3,
        sched (some (dueDate + 7 * 24 * 60)) (estimateTaskTime task) bufferTime = .error e1 →
        sched (some dueDate) (estimateTaskTime task) (max 5 (bufferTime / 2)) = .error e2 →
        sched (some dueDate) (shrinkEstimation (estimateTaskTime task)) bufferTime = .error e3 →
        rescheduleOneTask sched now bufferTime task = (task, none, false))) := by
  constructor
  · intro e es hce
    simp [rescheduleOneTask, attemptSchedule, hstrict, hce]
  · intro hce
    have hladder : scheduleTaskWithRelaxedConstraints sched task (estimateTaskTime task) bufferTime =
        match sched (some (dueDate + 7 * 24 * 60)) (estimateTaskTime task) bufferTime with
        | .ok events => .ok events
        | .error _ =>
          match sched (some dueDate) (estimateTaskTime task) (max 5 (bufferTime / 2)) with
          | .ok events => .ok events
          | .error _ => sched (some dueDate) (shrinkEstimation (estimateTaskTime task)) bufferTime := by
      simp only [scheduleTaskWithRelaxedConstraints, hdue]
      rcases sched (some (dueDate + 7 * 24 * 60)) (estimateTaskTime task) bufferTime with e1 | ev1
      · rcases sched (some dueDate) (estimateTaskTime task) (max 5 (bufferTime / 2)) with e2 | ev2
        · rcases h3 : sched (some dueDate) (shrinkEstimation (estimateTaskTime task)) bufferTime
            with e3 | ev3 <;> simp [h3]
        · rfl
      · rfl
    have hattempt : attemptSchedule sched task bufferTime =
        match scheduleTaskWithRelaxedConstraints sched task (estimateTaskTime task) bufferTime with
        | .ok events => some events
        | .error _ => none := by
      rcases hce with hce | hce <;>
        simp [attemptSchedule, hstrict, hce]
    refine ⟨hattempt, hladder, ?_⟩
    intro e1 e2 e3 h1 h2 h3
    have : attemptSchedule sched task bufferTime = none := by
      rw [hattempt, hladder, h1, h2, h3]
    simp [rescheduleOneTask, this]

/-- C3 (witness for the amended theorem): a block-less task on a scheduler
that fails every attempt is left untouched. -/
theorem rescheduleAffectedTasks_relaxation_policy_witness :
    c3wTask.dueDate = some 0 ∧
    c3wSched c3wTask.dueDate (estimateTaskTime c3wTask) 15 = .error (.capacityExceeded 1 0) ∧
    rescheduleOneTask c3wSched 0 15 c3wTask = (c3wTask, none, false) := by
  refine ⟨rfl, rfl, ?_⟩
  have h := rescheduleAffectedTasks_relaxation_policy c3wSched 0 15 c3wTask 0
    (.capacityExceeded 1 0) rfl rfl
  exact (h.2 (Or.inl rfl)).2.2 _ _ _ rfl rfl rfl

/-- C7: a change entry is recorded for a task if and only if its (strict or
relaxed) allocation produced a non-empty block list whose window differs
from the task's previous window in its start or end instant; the recorded
entry is exactly `{taskId, oldSchedule, newSchedule}`.  In particular a task
whose placement is unchanged contributes no change entry. -/
theorem rescheduleOneTask_change_entry_iff
    (sched : SchedFn) (now bufferTime : ℚ) (task : Task) :
    ((∃ c, (rescheduleOneTask sched now bufferTime task).2.1 = some c) ↔
      (∃ events newSchedule oldSchedule,
        attemptSchedule sched task bufferTime = some events ∧
        scheduleWindowOf events = some newSchedule ∧
        getTaskSchedule task = some oldSchedule ∧
        (oldSchedule.start ≠ newSchedule.start ∨ oldSchedule.endT ≠ newSchedule.endT))) ∧
    (∀ c, (rescheduleOneTask sched now bufferTime task).2.1 = some c →
      c.taskId = task.id ∧ getTaskSchedule task = some c.oldSchedule ∧
      (∃ events, attemptSchedule sched task bufferTime = some events ∧
        scheduleWindowOf events = some c.newSchedule)) := by
  rcases hA : attemptSchedule sched task bufferTime with _ | events
  · simp [rescheduleOneTask, hA]
  · rcases hW : scheduleWindowOf events with _ | nw
    · constructor
      · constructor
        · rintro ⟨c, hc⟩
          simp [rescheduleOneTask, hA, hW] at hc
        · rintro ⟨ev', nw', w', hev', hnw', hw', hd'⟩
          injection hev' with hev''
          subst hev''
          rw [hW] at hnw'
          cases hnw'
      · intro c hc
        simp [rescheduleOneTask, hA, hW] at hc
    · rcases hO : getTaskSchedule task with _ | w
      · constructor
        · constructor
          · rintro ⟨c, hc⟩
            simp [rescheduleOneTask, hA, hW, hO] at hc
          · rintro ⟨ev', nw', w', hev', hnw', hw', hd'⟩
            cases hw'
        · intro c hc
          simp [rescheduleOneTask, hA, hW, hO] at hc
      · by_cases hd : w.start ≠ nw.start ∨ w.endT ≠ nw.endT
        · constructor
          · constructor
            · intro _
              exact ⟨events, nw, w, rfl, hW, rfl, hd⟩
            · intro _
              refine ⟨⟨task.id, w, nw⟩, ?_⟩
              simp [rescheduleOneTask, hA, hW, hO, if_pos hd]
          · intro c hc
            simp only [rescheduleOneTask, hA, hW, hO, if_pos hd] at hc
            simp at hc
            subst hc
            exact ⟨rfl, rfl, events, rfl, hW⟩
        · constructor
          · constructor
            · rintro ⟨c, hc⟩
              simp only [rescheduleOneTask, hA, hW, hO, if_neg hd] at hc
              simp at hc
            · rintro ⟨ev', nw', w', hev', hnw', hw', hd'⟩
              injection hev' with hev''
              subst hev''
              rw [hW] at hnw'
              injection hnw' with hnw''
              subst hnw''
              injection hw' with hw''
              subst hw''
              exact absurd hd' hd
          · intro c hc
            simp only [rescheduleOneTask, hA, hW, hO, if_neg hd] at hc
            simp at hc

/-- C7 (witness): allocation moves the scheduled window from 100–160 to
20000–20060, so a change entry is recorded. -/
theorem rescheduleOneTask_change_entry_iff_witness :
    ∃ c, (rescheduleOneTask c7Sched 0 15 c3Task).2.1 = some c :=
  (rescheduleOneTask_change_entry_iff c7Sched 0 15 c3Task).1.mpr
    ⟨[c3Block], { start := 20000, endT := 20060 }, { start := 100, endT := 160 },
      rfl,
      by norm_num [scheduleWindowOf, c3Block],
      by norm_num [getTaskSchedule, c3Task, baseTask, scheduleWindowOf,
        List.insertionSort, c3OldBlock],
      by norm_num⟩

/-! ### Claim about the allocator's output blocks (C2) -/

/-- Invariants of the inner allocation loop over one slot: the produced
events stay inside `[slotStart, slotStart + rem]`, have positive durations,
are chained in time, and consume the phase list in order; the leftover phase
work keeps positive durations and is a suffix of the input phase sequence. -/
theorem allocSlot_spec (taskId : String) (bufferTime : ℚ) (hb : 0 ≤ bufferTime) :
    ∀ (ps : List PhaseWork) (slotStart rem : ℚ),
      (∀ p ∈ ps, 0 < p.duration) →
      (ps.map PhaseWork.phase).Pairwise (fun a b => phaseIdx a ≤ phaseIdx b) →
      (∀ e ∈ (allocSlot taskId bufferTime ps slotStart rem).1,
        slotStart ≤ e.startTime ∧ e.startTime < e.endTime ∧ e.endTime ≤ slotStart + rem) ∧
      (allocSlot taskId bufferTime ps slotStart rem).1.Pairwise
        (fun a b => a.endTime ≤ b.startTime) ∧
      (∀ q ∈ (allocSlot taskId bufferTime ps slotStart rem).2, 0 < q.duration) ∧
      List.IsSuffix ((allocSlot taskId bufferTime ps slotStart rem).2.map PhaseWork.phase)
        (ps.map PhaseWork.phase) ∧
      (∀ e ∈ (allocSlot taskId bufferTime ps slotStart rem).1,
        e.phase ∈ ps.map PhaseWork.phase) ∧
      (∀ e ∈ (allocSlot taskId bufferTime ps slotStart rem).1,
        ∀ q ∈ (allocSlot taskId bufferTime ps slotStart rem).2,
          phaseIdx e.phase ≤ phaseIdx q.phase) ∧
      (allocSlot taskId bufferTime ps slotStart rem).1.Pairwise
        (fun a b => phaseIdx a.phase ≤ phaseIdx b.phase) := by
  intro ps
  induction ps with
  | nil =>
    intro slotStart rem _ _
    simp [allocSlot]
  | cons p ps ih =>
    intro slotStart rem hpos hsort
    have hp : 0 < p.duration := hpos p (List.mem_cons_self p ps)
    have hpos' : ∀ q ∈ ps, 0 < q.duration := fun q hq => hpos q (List.mem_cons_of_mem p hq)
    have hsort' : (ps.map PhaseWork.phase).Pairwise (fun a b => phaseIdx a ≤ phaseIdx b) :=
      (List.pairwise_cons.mp hsort).2
    have hhead : ∀ b ∈ ps.map PhaseWork.phase, phaseIdx p.phase ≤ phaseIdx b :=
      (List.pairwise_cons.mp hsort).1
    by_cases hrem : rem < 30
    · rw [show allocSlot taskId bufferTime (p :: ps) slotStart rem = ([], p :: ps) by
        simp [allocSlot, hrem]]
      refine ⟨by simp, by simp, hpos, List.suffix_refl _, by simp, by simp, by simp⟩
    · have hrem30 : (30 : ℚ) ≤ rem := not_lt.mp hrem
      set t := min p.duration rem with ht
      have ht_pos : 0 < t := lt_min hp (by linarith)
      have ht_le : t ≤ rem := min_le_right _ _
      by_cases hfull : p.duration - t ≤ 0
      · have heq : allocSlot taskId bufferTime (p :: ps) slotStart rem =
            (({ id := taskId ++ "-" ++ toString (phaseIdx p.phase), taskId := taskId,
                phase := p.phase, startTime := slotStart, endTime := slotStart + t,
                googleEventId := none } : CalendarEvent) ::
              (allocSlot taskId bufferTime ps (slotStart + t + bufferTime)
                (rem - (t + bufferTime))).1,
             (allocSlot taskId bufferTime ps (slotStart + t + bufferTime)
                (rem - (t + bufferTime))).2) := by
          simp [allocSlot, hrem, ← ht, hfull]
        obtain ⟨ih1, ih2, ih3, ih4, ih5, ih6, ih7⟩ :=
          ih (slotStart + t + bufferTime) (rem - (t + bufferTime)) hpos' hsort'
        rw [heq]
        have hinv : slotStart + t + bufferTime + (rem - (t + bufferTime)) = slotStart + rem := by
          ring
        refine ⟨?_, ?_, ih3, ih4.trans (List.suffix_cons _ _), ?_, ?_, ?_⟩
        · intro e he
          rcases List.mem_cons.mp he with rfl | he'
          · refine ⟨le_refl _, ?_, ?_⟩
            · show slotStart < slotStart + t
              linarith
            · show slotStart + t ≤ slotStart + rem
              linarith
          · obtain ⟨h1, h2, h3⟩ := ih1 e he'
            exact ⟨by linarith, h2, by linarith⟩
        · refine List.pairwise_cons.mpr ⟨?_, ih2⟩
          intro e' he'
          have h1 := (ih1 e' he').1
          show slotStart + t ≤ e'.startTime
          linarith
        · intro e he
          rcases List.mem_cons.mp he with rfl | he'
          · simp
          · exact List.mem_cons_of_mem _ (ih5 e he')
        · intro e he q hq
          rcases List.mem_cons.mp he with rfl | he'
          · have hq' : q.phase ∈ (allocSlot taskId bufferTime ps (slotStart + t + bufferTime)
                (rem - (t + bufferTime))).2.map PhaseWork.phase :=
              List.mem_map_of_mem _ hq
            have : q.phase ∈ ps.map PhaseWork.phase := ih4.sublist.subset hq'
            exact hhead _ this
          · exact ih6 e he' q hq
        · refine List.pairwise_cons.mpr ⟨?_, ih7⟩
          intro e' he'
          exact hhead _ (ih5 e' he')
      · have heq : allocSlot taskId bufferTime (p :: ps) slotStart rem =
            ([({ id := taskId ++ "-" ++ toString (phaseIdx p.phase), taskId := taskId,
                  phase := p.phase, startTime := slotStart, endTime := slotStart + t,
                  googleEventId := none } : CalendarEvent)],
             (⟨p.phase, p.duration - t⟩ : PhaseWork) :: ps) := by
          simp [allocSlot, hrem, ← ht, hfull]
        rw [heq]
        refine ⟨?_, by simp, ?_, ?_, ?_, ?_, by simp⟩
        · intro e he
          rcases List.mem_cons.mp he with rfl | he'
          · refine ⟨le_refl _, ?_, ?_⟩
            · show slotStart < slotStart + t
              linarith
            · show slotStart + t ≤ slotStart + rem
              linarith
          · simp at he'
        · intro q hq
          rcases List.mem_cons.mp hq with rfl | hq'
          · simpa using lt_of_not_le hfull
          · exact hpos' q hq'
        · exact List.suffix_refl _
        · intro e he
          rcases List.mem_cons.mp he with rfl | he'
          · simp
          · simp at he'
        · intro e he q hq
          rcases List.mem_cons.mp he with rfl | he'
          · rcases List.mem_cons.mp hq with rfl | hq'
            · simp
            · exact hhead _ (List.mem_map_of_mem _ hq')
          · simp at he'

/-- Helper: in a chained slot list with nonnegative durations, every later
slot starts no earlier than the head slot's end. -/
theorem chain_head_le (s : TimeSlot) : ∀ (ss : List TimeSlot),
    List.Chain' (fun a b => a.start + a.duration ≤ b.start) (s :: ss) →
    (∀ x ∈ ss, 0 ≤ x.duration) →
    ∀ x ∈ ss, s.start + s.duration ≤ x.start
  | [], _, _, x, hx => by simp at hx
  | y :: t, hch, hdur, x, hx => by
    have h1 : s.start + s.duration ≤ y.start := (List.chain'_cons.mp hch).1
    rcases List.mem_cons.mp hx with rfl | hx'
    · exact h1
    · have h2 := chain_head_le y t (List.chain'_cons.mp hch).2
        (fun z hz => hdur z (List.mem_cons_of_mem _ hz)) x hx'
      have hy : 0 ≤ y.duration := hdur y (List.mem_cons_self _ _)
      linarith

/-- Invariants of the outer allocation loop: every produced event lies
inside one of the free slots, has positive duration; the events are chained
in time and their phases are drawn from the phase list in non-decreasing
order. -/
theorem allocSlots_spec (taskId : String) (bufferTime : ℚ) (hb : 0 ≤ bufferTime) :
    ∀ (slots : List TimeSlot) (ps : List PhaseWork),
      (∀ p ∈ ps, 0 < p.duration) →
      (ps.map PhaseWork.phase).Pairwise (fun a b => phaseIdx a ≤ phaseIdx b) →
      slots.Chain' (fun a b => a.start + a.duration ≤ b.start) →
      (∀ s ∈ slots, 0 ≤ s.duration) →
      (∀ e ∈ (allocSlots taskId bufferTime slots ps).1,
        ∃ s ∈ slots, s.start ≤ e.startTime ∧ e.endTime ≤ s.start + s.duration) ∧
      (∀ e ∈ (allocSlots taskId bufferTime slots ps).1, e.startTime < e.endTime) ∧
      (allocSlots taskId bufferTime slots ps).1.Pairwise
        (fun a b => a.endTime ≤ b.startTime) ∧
      (∀ e ∈ (allocSlots taskId bufferTime slots ps).1, e.phase ∈ ps.map PhaseWork.phase) ∧
      (allocSlots taskId bufferTime slots ps).1.Pairwise
        (fun a b => phaseIdx a.phase ≤ phaseIdx b.phase) := by
  intro slots
  induction slots with
  | nil =>
    intro ps _ _ _ _
    cases ps <;> simp [allocSlots]
  | cons s ss ih =>
    intro ps hpos hsort hchain hdur
    cases ps with
    | nil => simp [allocSlots]
    | cons p pt =>
      have heq : allocSlots taskId bufferTime (s :: ss) (p :: pt) =
          ((allocSlot taskId bufferTime (p :: pt) s.start s.duration).1 ++
            (allocSlots taskId bufferTime ss
              (allocSlot taskId bufferTime (p :: pt) s.start s.duration).2).1,
           (allocSlots taskId bufferTime ss
              (allocSlot taskId bufferTime (p :: pt) s.start s.duration).2).2) := by
        simp [allocSlots]
      obtain ⟨a1, a2, a3, a4, a5, a6, a7⟩ :=
        allocSlot_spec taskId bufferTime hb (p :: pt) s.start s.duration hpos hsort
      have hpos2 : ∀ q ∈ (allocSlot taskId bufferTime (p :: pt) s.start s.duration).2,
          0 < q.duration := a3
      have hsort2 : ((allocSlot taskId bufferTime (p :: pt) s.start s.duration).2.map
          PhaseWork.phase).Pairwise (fun a b => phaseIdx a ≤ phaseIdx b) :=
        List.Pairwise.sublist a4.sublist hsort
      have hchain2 : ss.Chain' (fun a b => a.start + a.duration ≤ b.start) := hchain.tail
      have hdur2 : ∀ x ∈ ss, 0 ≤ x.duration := fun x hx => hdur x (List.mem_cons_of_mem _ hx)
      obtain ⟨b1, b2, b3, b4, b5⟩ := ih _ hpos2 hsort2 hchain2 hdur2
      have hstarts : ∀ x ∈ ss, s.start + s.duration ≤ x.start :=
        chain_head_le s ss hchain hdur2
      rw [heq]
      refine ⟨?_, ?_, ?_, ?_, ?_⟩
      · intro e he
        rcases List.mem_append.mp he with he' | he'
        · exact ⟨s, List.mem_cons_self _ _, (a1 e he').1, (a1 e he').2.2⟩
        · obtain ⟨s', hs', h1, h2⟩ := b1 e he'
          exact ⟨s', List.mem_cons_of_mem _ hs', h1, h2⟩
      · intro e he
        rcases List.mem_append.mp he with he' | he'
        · exact (a1 e he').2.1
        · exact b2 e he'
      · refine List.pairwise_append.mpr ⟨a2, b3, ?_⟩
        intro x hx y hy
        obtain ⟨s', hs', h1, _⟩ := b1 y hy
        have h2 : x.endTime ≤ s.start + s.duration := (a1 x hx).2.2
        have h3 : s.start + s.duration ≤ s'.start := hstarts s' hs'
        linarith
      · intro e he
        rcases List.mem_append.mp he with he' | he'
        · exact a5 e he'
        · exact a4.sublist.subset (b4 e he')
      · refine List.pairwise_append.mpr ⟨a7, b5, ?_⟩
        intro x hx y hy
        have hy' := b4 y hy
        obtain ⟨q, hq, hqy⟩ := List.mem_map.mp hy'
        have := a6 x hx q hq
        rw [hqy] at this
        exact this

/-- Helper: the phase work list built by `scheduleTask` has positive
durations. -/
theorem buildPhases_pos (estimation : TaskEstimation) :
    ∀ p ∈ buildPhases estimation, 0 < p.duration := by
  intro p hp
  simp only [buildPhases, List.mem_filter, decide_eq_true_eq] at hp
  exact hp.2

/-- Helper: the phase work list built by `scheduleTask` lists the phases in
the fixed order. -/
theorem buildPhases_sorted (estimation : TaskEstimation) :
    ((buildPhases estimation).map PhaseWork.phase).Pairwise
      (fun a b => phaseIdx a ≤ phaseIdx b) := by
  have hsub : List.Sublist (buildPhases estimation)
      [⟨.incubation, estimation.incubation⟩, ⟨.design, estimation.design⟩,
       ⟨.implementation, estimation.implementation⟩,
       ⟨.improvement, estimation.improvement⟩] := List.filter_sublist _
  refine List.Pairwise.sublist (hsub.map PhaseWork.phase) ?_
  simp only [List.map]
  decide

/-- C2: every successful allocation returns blocks that are pairwise
non-overlapping and chronologically ordered (each block ends no later than
the next starts), have strictly positive durations, and carry phases in the
fixed non-decreasing phase order — for every task, estimation, nonnegative
buffer time, and well-formed free-slot list (as produced by the
Availability Finder). -/
theorem scheduleTask_blocks_invariants
    (task : Task) (estimation : TaskEstimation) (availableSlots : List TimeSlot)
    (bufferTime : ℚ) (events : List CalendarEvent)
    (hb : 0 ≤ bufferTime) (hwf : SlotsWF availableSlots)
    (hok : scheduleTask task estimation availableSlots bufferTime = .ok events) :
    events.Pairwise (fun a b => a.endTime ≤ b.startTime) ∧
    (∀ e ∈ events, e.startTime < e.endTime) ∧
    events.Pairwise (fun a b => phaseIdx a.phase ≤ phaseIdx b.phase) := by
  obtain ⟨due, hdue⟩ : ∃ d, task.dueDate = some d := by
    rcases h : task.dueDate with _ | d
    · rw [scheduleTask, h] at hok
      cases hok
    · exact ⟨d, rfl⟩
  rw [scheduleTask, hdue] at hok
  by_cases hres : (allocSlots task.id bufferTime availableSlots (buildPhases estimation)).2.isEmpty
  · rw [if_pos hres] at hok
    injection hok with hok
    obtain ⟨_, b2, b3, _, b5⟩ := allocSlots_spec task.id bufferTime hb availableSlots
      (buildPhases estimation) (buildPhases_pos estimation) (buildPhases_sorted estimation)
      hwf.1 hwf.2
    rw [hok] at b2 b3 b5
    exact ⟨b3, b2, b5⟩
  · rw [if_neg hres] at hok
    cases hok

/-- C2 (witness): a one-hour estimation allocated into a free 9-hour day
with a 15-minute buffer. -/
theorem scheduleTask_blocks_invariants_witness :
    0 ≤ (15 : ℚ) ∧ SlotsWF c2Slots ∧
    ∃ events, scheduleTask c2Task c3Estimation c2Slots 15 = .ok events ∧
      events.Pairwise (fun a b => a.endTime ≤ b.startTime) ∧
      (∀ e ∈ events, e.startTime < e.endTime) ∧
      events.Pairwise (fun a b => phaseIdx a.phase ≤ phaseIdx b.phase) := by
  have hwf : SlotsWF c2Slots := ⟨by simp [c2Slots], by norm_num [c2Slots]⟩
  have hempty : (allocSlots c2Task.id 15 c2Slots (buildPhases c3Estimation)).2 = [] := by
    norm_num [allocSlots, allocSlot, buildPhases, c2Slots, c2Task, baseTask, c3Estimation,
      min_def]
  have hok : scheduleTask c2Task c3Estimation c2Slots 15 =
      .ok (allocSlots c2Task.id 15 c2Slots (buildPhases c3Estimation)).1 := by
    have hdue : c2Task.dueDate = some 540 := rfl
    simp only [scheduleTask, hdue, hempty]
    simp
  obtain ⟨h1, h2, h3⟩ := scheduleTask_blocks_invariants c2Task c3Estimation c2Slots 15 _
    (by norm_num) hwf hok
  exact ⟨by norm_num, hwf, _, hok, h1, h2, h3⟩

/-- Helper: the gap slots of one day are chained with at-least-30-minute
durations, and each starts either at the initial cursor or one buffer after
some busy interval's end. -/
theorem dayGaps_wf (bufferTime dayEnd : ℚ) (hb : 0 ≤ bufferTime) :
    ∀ (es : List BusyInterval) (c : ℚ),
      es.Pairwise (fun a b => a.start ≤ b.start) →
      (∀ e ∈ es, e.start ≤ e.endT) →
      (dayGaps bufferTime dayEnd es c).Pairwise (fun a b => a.start + a.duration ≤ b.start) ∧
      (∀ s ∈ dayGaps bufferTime dayEnd es c, (30 : ℚ) ≤ s.duration) ∧
      (∀ s ∈ dayGaps bufferTime dayEnd es c,
        s.start = c ∨ ∃ e ∈ es, s.start = e.endT + bufferTime) := by
  intro es
  induction es with
  | nil =>
    intro c _ _
    refine ⟨?_, ?_, ?_⟩ <;>
      simp only [dayGaps] <;>
      split_ifs with h1 h2 <;>
      simp_all
  | cons e es ih =>
    intro c hsort hwf
    have hsort' : es.Pairwise (fun a b => a.start ≤ b.start) := (List.pairwise_cons.mp hsort).2
    have hhead : ∀ x ∈ es, e.start ≤ x.start := (List.pairwise_cons.mp hsort).1
    have hwf' : ∀ x ∈ es, x.start ≤ x.endT := fun x hx => hwf x (List.mem_cons_of_mem _ hx)
    have hewf : e.start ≤ e.endT := hwf e (List.mem_cons_self _ _)
    obtain ⟨ih1, ih2, ih3⟩ := ih (e.endT + bufferTime) hsort' hwf'
    have hrecstart : ∀ s ∈ dayGaps bufferTime dayEnd es (e.endT + bufferTime),
        e.start - bufferTime ≤ s.start := by
      intro s hs
      rcases ih3 s hs with h | ⟨e', he', h⟩
      · rw [h]; linarith
      · have h1 : e.start ≤ e'.start := hhead e' he'
        have h2 : e'.start ≤ e'.endT := hwf' e' he'
        rw [h]; linarith
    have hgoal : ∀ hd : List TimeSlot,
        hd.Pairwise (fun a b => a.start + a.duration ≤ b.start) →
        (∀ s ∈ hd, s.start = c ∧ s.start + s.duration ≤ e.start - bufferTime ∧
          (30 : ℚ) ≤ s.duration) →
        (hd ++ dayGaps bufferTime dayEnd es (e.endT + bufferTime)).Pairwise
          (fun a b => a.start + a.duration ≤ b.start) ∧
        (∀ s ∈ hd ++ dayGaps bufferTime dayEnd es (e.endT + bufferTime),
          (30 : ℚ) ≤ s.duration) ∧
        (∀ s ∈ hd ++ dayGaps bufferTime dayEnd es (e.endT + bufferTime),
          s.start = c ∨ ∃ x ∈ e :: es, s.start = x.endT + bufferTime) := by
      intro hd hdpw hhd
      refine ⟨?_, ?_, ?_⟩
      · refine List.pairwise_append.mpr ⟨hdpw, ih1, ?_⟩
        · intro x hx y hy
          have h1 : x.start + x.duration ≤ e.start - bufferTime := (hhd x hx).2.1
          have h2 := hrecstart y hy
          linarith
      · intro s hs
        rcases List.mem_append.mp hs with hs' | hs'
        · exact (hhd s hs').2.2
        · exact ih2 s hs'
      · intro s hs
        rcases List.mem_append.mp hs with hs' | hs'
        · exact Or.inl (hhd s hs').1
        · rcases ih3 s hs' with h | ⟨e', he', h⟩
          · exact Or.inr ⟨e, List.mem_cons_self _ _, h⟩
          · exact Or.inr ⟨e', List.mem_cons_of_mem _ he', h⟩
    by_cases h1 : c < e.start
    · by_cases h2 : c < e.start - bufferTime
      · by_cases h3 : (30 : ℚ) ≤ mathFloor (e.start - bufferTime - c)
        · have heq : dayGaps bufferTime dayEnd (e :: es) c =
              [⟨c, e.start - bufferTime, mathFloor (e.start - bufferTime - c)⟩] ++
                dayGaps bufferTime dayEnd es (e.endT + bufferTime) := by
            simp [dayGaps, h1, h2, h3]
          rw [heq]
          refine hgoal _ (by simp) ?_
          intro s hs
          rcases List.mem_cons.mp hs with rfl | hs'
          · refine ⟨rfl, ?_, h3⟩
            have hfl : mathFloor (e.start - bufferTime - c) ≤ e.start - bufferTime - c :=
              Int.floor_le _
            simp only
            linarith
          · simp at hs'
        · have heq : dayGaps bufferTime dayEnd (e :: es) c =
              [] ++ dayGaps bufferTime dayEnd es (e.endT + bufferTime) := by
            simp [dayGaps, h1, h2, h3]
          rw [heq]
          exact hgoal _ (by simp) (by simp)
      · have heq : dayGaps bufferTime dayEnd (e :: es) c =
            [] ++ dayGaps bufferTime dayEnd es (e.endT + bufferTime) := by
          simp [dayGaps, h1, h2]
        rw [heq]
        exact hgoal _ (by simp) (by simp)
    · have heq : dayGaps bufferTime dayEnd (e :: es) c =
          [] ++ dayGaps bufferTime dayEnd es (e.endT + bufferTime) := by
        simp [dayGaps, h1]
      rw [heq]
      exact hgoal _ (by simp) (by simp)

/-- Supporting fact for C2's slot hypothesis: the day-level output of the
Availability Finder is a well-formed slot list — chained chronologically
with nonnegative durations — whenever the buffer is nonnegative, the working
window is ordered, and the provider's busy intervals are ordered. -/
theorem findDayAvailableSlots_wf (dayStart dayEnd bufferTime : ℚ) (hb : 0 ≤ bufferTime)
    (hday : dayStart ≤ dayEnd) (events : Except Unit (List BusyInterval))
    (hev : ∀ l, events = .ok l → ∀ e ∈ l, e.start ≤ e.endT) :
    SlotsWF (findDayAvailableSlots dayStart dayEnd bufferTime events).1 := by
  cases events with
  | error err =>
    refine ⟨by simp [findDayAvailableSlots], ?_⟩
    intro s hs
    simp only [findDayAvailableSlots, List.mem_singleton] at hs
    subst hs
    have : (0 : ℚ) ≤ dayEnd - dayStart := by linarith
    simpa [mathFloor] using Int.floor_nonneg.mpr this
  | ok l =>
    haveI : IsTotal BusyInterval (fun a b => a.start ≤ b.start) :=
      ⟨fun a b => le_total a.start b.start⟩
    haveI : IsTrans BusyInterval (fun a b => a.start ≤ b.start) :=
      ⟨fun _ _ _ hab hbc => le_trans hab hbc⟩
    have hsorted : (l.insertionSort (fun a b => a.start ≤ b.start)).Pairwise
        (fun a b => a.start ≤ b.start) := List.sorted_insertionSort _ _
    have hwf : ∀ e ∈ l.insertionSort (fun a b => a.start ≤ b.start), e.start ≤ e.endT := by
      intro e he
      exact hev l rfl e ((List.mem_insertionSort _).mp he)
    obtain ⟨h1, h2, _⟩ := dayGaps_wf bufferTime dayEnd hb
      (l.insertionSort (fun a b => a.start ≤ b.start)) dayStart hsorted hwf
    exact ⟨h1.chain', fun s hs => le_trans (by norm_num) (h2 s hs)⟩

end FamilyTasks
